import Mathlib

/-!
Verification of the retrieval-augmented-generation notebook
(`test-weaviate.ipynb`).

The notebook defines three pieces of logic that the specification
describes:

* `split_into_chunks(text, max_length=500)` — the Chunker;
* `retrieve_relevant_chunks(query, top_k=3)` — the Ranker;
* `answer_question(query)` — the Answer Orchestrator with its
  short-answer fallback policy.

Embedding conventions:

* Python strings are modelled as `List Char` (`PyStr`); Python `len`,
  slicing `s[:n]`, and `+` become `List.length`, `List.take n` and `++`.
* Python ints are `Int`; loop counters that are provably non-negative
  (`current_length`) are `Nat` and cast where they meet an `Int`.
* Python floats are idealized as real numbers `ℝ`.
* External effects (the sentence-transformer `model.encode`, the Weaviate
  corpus iterator, and the `qa_pipeline` generation call) are passed in
  as explicit parameters: an `encode` function, a `corpus` list of
  (content, vector) records, and a generation function.
* Code that can raise (`relevant_chunks[0]` on an empty list) returns
  `Option`, with `none` for the raised `IndexError`.

The file lists all definitions first and all theorems after them.
-/

set_option maxHeartbeats 1000000

namespace RagModel

abbrev PyStr := List Char

/-! ### Python `str.split()` (whitespace word-splitting)

`split_into_chunks` starts with `words = text.split()`: the Python
argument-less `split` breaks the string at maximal runs of whitespace and
never yields empty words.  `pyWords` is that function on `List Char`,
written by structural recursion so that it evaluates by `decide`/`rfl`:
a whitespace head is skipped; a non-whitespace head either starts a fresh
word (at the end of the string or before whitespace) or is prepended to
the word that the rest of the string starts with. -/

/-- Prepend a character to the first word of a word list (used when the
character and the following character belong to the same word). -/
def consWord (c : Char) : List PyStr → List PyStr
  | [] => [[c]]
  | w :: ws => (c :: w) :: ws

/-- Model of Python `str.split()` on `List Char`: split at runs of
whitespace, returning the (non-empty) words in order. -/
def pyWords : List Char → List PyStr
  | [] => []
  | c :: cs =>
    if c.isWhitespace then pyWords cs
    else
      match cs with
      | [] => [[c]]
      | d :: _ => if d.isWhitespace then [c] :: pyWords cs else consWord c (pyWords cs)

/-- Python `sep.join(xs)`. -/
def joinSep (sep : PyStr) : List PyStr → PyStr
  | [] => []
  | [w] => w
  | w :: ws => w ++ sep ++ joinSep sep ws

/-! ### The Chunker: `split_into_chunks`

Source (notebook cell 9):

```python
def split_into_chunks(text, max_length=500):
    words = text.split()
    chunks = []
    current_chunk = []
    current_length = 0

    for word in words:
        if current_length + len(word) <= max_length:
            current_chunk.append(word)
            current_length += len(word) + 1
        else:
            chunks.append(" ".join(current_chunk))
            current_chunk = [word]
            current_length = len(word) + 1

    if current_chunk:
        chunks.append(" ".join(current_chunk))

    return chunks
```

`splitLoop` is the `for` loop together with the trailing
`if current_chunk` emission.  It returns the emitted chunks as word
lists (groups); the source joins each group with `" ".join` at the moment
it is appended, which is the same as joining every emitted group at the
end — `split_into_chunks` performs that join with `map (joinSep [' '])`.
Note that the `else` branch appends `" ".join(current_chunk)` even when
`current_chunk` is still the initial empty list, producing an empty
chunk `""`. -/

/-- The packing loop of `split_into_chunks`, returning each emitted chunk
as its list of words. -/
def splitLoop (max_length : Int) : List PyStr → List PyStr → Nat → List (List PyStr)
  | [], current_chunk, _ =>
    if current_chunk = [] then [] else [current_chunk]
  | word :: words, current_chunk, current_length =>
    if (current_length : Int) + word.length ≤ max_length then
      splitLoop max_length words (current_chunk ++ [word]) (current_length + word.length + 1)
    else
      current_chunk :: splitLoop max_length words [word] (word.length + 1)

/-- The Chunker: Python `split_into_chunks(text, max_length)`. -/
def split_into_chunks (text : PyStr) (max_length : Int) : List PyStr :=
  (splitLoop max_length (pyWords text) [] 0).map (joinSep [' '])

/-! ### The Ranker: `retrieve_relevant_chunks`

Source (notebook cell 16):

```python
def retrieve_relevant_chunks(query, top_k=3):
    query_vector = model.encode(query).tolist()
    collection = client.collections.get("TextChunk")
    chunks = []
    for item in collection.iterator(include_vector=True):
        content = item.properties["content"]
        vector = item.vector["default"]
        similarity = cosine_similarity([query_vector], [vector])[0][0]
        chunks.append((content, similarity))
    chunks = sorted(chunks, key=lambda x: x[1], reverse=True)
    top_chunks = [chunk[0] for chunk in chunks[:top_k]]
    return top_chunks
```

The embedding gateway `model.encode` becomes an `encode` parameter; the
Weaviate iterator becomes a `corpus` list of (content, vector) records;
floats are idealized as `ℝ`. -/

/-- Dot product of two real vectors, truncating at the shorter one. -/
def dotList (a b : List ℝ) : ℝ := (List.zipWith (fun x y => x * y) a b).sum

/-- Euclidean norm of a vector. -/
noncomputable def norm2 (a : List ℝ) : ℝ := Real.sqrt (dotList a a)

/-- Modelled from the spec: `cosine_similarity` is an external
`sklearn.metrics.pairwise` call, absent from the repository.  sklearn
computes it by L2-normalizing each vector — substituting 1 for a zero
norm so that no division by zero is raised — and taking the dot product
of the normalized vectors; the spec describes the same quantity as
`dot(a,b) / (norm(a) * norm(b))` with zero-magnitude inputs mapped to 0. -/
noncomputable def sklearnNormalize (a : List ℝ) : List ℝ :=
  a.map (fun x => x / (if norm2 a = 0 then 1 else norm2 a))

/-- The similarity used by the Ranker: sklearn cosine similarity,
normalize-then-dot (see `sklearnNormalize`). -/
noncomputable def cosineSimilarity (a b : List ℝ) : ℝ :=
  dotList (sklearnNormalize a) (sklearnNormalize b)

/-- The specification formula for cosine similarity:
`dot(a,b) / (norm(a) * norm(b))`, defined as 0 when either vector has
zero magnitude. -/
noncomputable def cosineSimilaritySpec (a b : List ℝ) : ℝ :=
  if norm2 a = 0 ∨ norm2 b = 0 then 0 else dotList a b / (norm2 a * norm2 b)

/-- One insertion step of a stable descending insertion sort: place `x`
before the first element whose score is at most the score of `x`.
The Python `sorted`
with `key=lambda x: x[1], reverse=True` is a stable descending sort, and
a stable sort is a unique function of the key order and the input order,
so this insertion sort computes the same list. -/
noncomputable def insertDesc (x : PyStr × ℝ) : List (PyStr × ℝ) → List (PyStr × ℝ)
  | [] => [x]
  | y :: ys => if y.2 ≤ x.2 then x :: y :: ys else y :: insertDesc x ys

/-- Model of `sorted(chunks, key=lambda x: x[1], reverse=True)`. -/
noncomputable def sortDesc : List (PyStr × ℝ) → List (PyStr × ℝ)
  | [] => []
  | x :: xs => insertDesc x (sortDesc xs)

/-- Python slicing `l[:k]` for an arbitrary integer `k`: a non-negative
stop takes the first `k` elements; a negative stop counts from the end
(`l[:k] = l[:len(l)+k]`), clamped at zero. -/
def pySlice {α : Type} (k : Int) (l : List α) : List α :=
  if k < 0 then l.take ((l.length : Int) + k).toNat else l.take k.toNat

/-- The scored corpus: the `chunks` list built by the Ranker loop,
pairing the content of each record with its similarity to the query
vector. -/
noncomputable def scoredChunks (encode : PyStr → List ℝ) (corpus : List (PyStr × List ℝ))
    (query : PyStr) : List (PyStr × ℝ) :=
  corpus.map (fun item => (item.1, cosineSimilarity (encode query) item.2))

/-- The Ranker: Python `retrieve_relevant_chunks(query, top_k)`.  The
`model.encode` gateway and the Weaviate collection iterator are the
`encode` and `corpus` parameters. -/
noncomputable def retrieve_relevant_chunks (encode : PyStr → List ℝ)
    (corpus : List (PyStr × List ℝ)) (query : PyStr) (top_k : Int) : List PyStr :=
  (pySlice top_k (sortDesc (scoredChunks encode corpus query))).map (fun chunk => chunk.1)

open Classical in
/-- The contents of the entries of a scored list that carry score `s`, in
list order. -/
noncomputable def withScore (s : ℝ) (l : List (PyStr × ℝ)) : List PyStr :=
  (l.filter (fun p => decide (p.2 = s))).map (fun p => p.1)

/-! ### The Answer Orchestrator: `answer_question`

Source (notebook cell 18):

```python
def answer_question(query):
    top = 5
    relevant_chunks = retrieve_relevant_chunks(query, top_k=top)
    context = "\n".join(relevant_chunks[:top])
    prompt = f"..."   # fixed instruction template around context and query
    response = qa_pipeline(prompt, max_length=200, truncation=True)
    if len(response[0][generated_text]) < 10:
        fallback_chunk = relevant_chunks[0]
        return generated + " (Additional context: " + fallback_chunk[:200] + "...)"
    return response[0][generated_text]
```

The generation gateway — `qa_pipeline(...)` followed by the
`[0][generated_text]` projection — is modelled as a `qa_pipeline`
function from the prompt to the generated text (its fixed
`max_length=200, truncation=True` arguments carry no logic).  The
`relevant_chunks[0]` subscript raises `IndexError` on an empty list, so
the operation returns `Option`, `none` standing for the raised error.
The `Answer.usedFallback` flag of the spec data model records which
branch produced the returned text. -/

/-- The spec Answer record: the returned text plus the flag telling
whether the short-answer fallback branch produced it. -/
structure Answer where
  text : PyStr
  usedFallback : Bool
deriving DecidableEq

/-- The fixed instruction template of the prompt (the f-string in
`answer_question`), with the context and question spliced in. -/
def qa_prompt (context query : PyStr) : PyStr :=
  ("\n        You are an helpfull assistant. Use the following context from a book to answer the user\x27s question.\n        Only if you don\x27t know the answer just say that you need more information.\n\n        Context:\n        ").data
    ++ context
    ++ ("\n\n        Use 5 sentences minimum and keep the answer concise and accurate.\n\n        Question: ").data
    ++ query
    ++ ("\n        Answer:").data

/-- `top = 5` in `answer_question`. -/
def answerTopK : Int := 5

/-- `relevant_chunks = retrieve_relevant_chunks(query, top_k=top)`. -/
noncomputable def answerRelevantChunks (encode : PyStr → List ℝ)
    (corpus : List (PyStr × List ℝ)) (query : PyStr) : List PyStr :=
  retrieve_relevant_chunks encode corpus query answerTopK

/-- `context = "\n".join(relevant_chunks[:top])`. -/
noncomputable def answerContext (encode : PyStr → List ℝ) (corpus : List (PyStr × List ℝ))
    (query : PyStr) : PyStr :=
  joinSep ['\n'] (pySlice answerTopK (answerRelevantChunks encode corpus query))

/-- The generated text: the generation gateway applied to the assembled
prompt. -/
noncomputable def answerGenerated (encode : PyStr → List ℝ) (qa_pipeline : PyStr → PyStr)
    (corpus : List (PyStr × List ℝ)) (query : PyStr) : PyStr :=
  qa_pipeline (qa_prompt (answerContext encode corpus query) query)

/-- The Answer Orchestrator: Python `answer_question(query)`.  `none`
models the `IndexError` raised by `relevant_chunks[0]` when the Ranker
returned no chunks and the fallback branch is taken. -/
noncomputable def answer_question (encode : PyStr → List ℝ) (qa_pipeline : PyStr → PyStr)
    (corpus : List (PyStr × List ℝ)) (query : PyStr) : Option Answer :=
  if (answerGenerated encode qa_pipeline corpus query).length < 10 then
    match answerRelevantChunks encode corpus query with
    | [] => none
    | fallback_chunk :: _ =>
      some ⟨answerGenerated encode qa_pipeline corpus query
          ++ (" (Additional context: ").data ++ fallback_chunk.take 200 ++ ("...)").data, true⟩
  else
    some ⟨answerGenerated encode qa_pipeline corpus query, false⟩

theorem space_isWhitespace : (' ' : Char).isWhitespace = true := rfl

theorem pyWords_space (c : Char) (t : List Char) (h : c.isWhitespace = true) :
    pyWords (c :: t) = pyWords t := by
  rw [pyWords.eq_def]; simp [h]

theorem pyWords_one (x : Char) (hx : x.isWhitespace = false) :
    pyWords [x] = [[x]] := by
  rw [pyWords.eq_def]; simp [hx]

theorem pyWords_cons_ws (x d : Char) (cs : List Char) (hx : x.isWhitespace = false)
    (hd : d.isWhitespace = true) :
    pyWords (x :: d :: cs) = [x] :: pyWords (d :: cs) := by
  rw [pyWords.eq_def]; simp [hx, hd]

theorem pyWords_cons_cons (x d : Char) (cs : List Char) (hx : x.isWhitespace = false)
    (hd : d.isWhitespace = false) :
    pyWords (x :: d :: cs) = consWord x (pyWords (d :: cs)) := by
  rw [pyWords.eq_def]; simp [hx, hd]

theorem pyWords_word_space (w : PyStr) (t : List Char) (hw : w ≠ [])
    (hns : ∀ c ∈ w, c.isWhitespace = false) :
    pyWords (w ++ ' ' :: t) = w :: pyWords t := by
  induction w with
  | nil => exact absurd rfl hw
  | cons x w ih =>
    cases w with
    | nil =>
      have hx : x.isWhitespace = false := hns x (by simp)
      rw [List.cons_append, List.nil_append,
        pyWords_cons_ws x ' ' t hx space_isWhitespace,
        pyWords_space ' ' t space_isWhitespace]
    | cons y w2 =>
      have hx : x.isWhitespace = false := hns x (by simp)
      have hy : y.isWhitespace = false := hns y (by simp)
      have ih2 := ih (by simp) (fun c hc => hns c (by simp [hc]))
      rw [List.cons_append] at ih2 ⊢
      rw [List.cons_append, pyWords_cons_cons x y (w2 ++ ' ' :: t) hx hy, ih2, consWord]

theorem pyWords_word (w : PyStr) (hw : w ≠ [])
    (hns : ∀ c ∈ w, c.isWhitespace = false) :
    pyWords w = [w] := by
  induction w with
  | nil => exact absurd rfl hw
  | cons x w ih =>
    cases w with
    | nil =>
      exact pyWords_one x (hns x (by simp))
    | cons y w2 =>
      have hx : x.isWhitespace = false := hns x (by simp)
      have hy : y.isWhitespace = false := hns y (by simp)
      have ih2 := ih (by simp) (fun c hc => hns c (by simp [hc]))
      rw [pyWords_cons_cons x y w2 hx hy, ih2, consWord]

theorem pyWords_wellformed (l : List Char) :
    ∀ u ∈ pyWords l, u ≠ [] ∧ ∀ c ∈ u, c.isWhitespace = false := by
  induction l with
  | nil => simp [pyWords]
  | cons c cs ih =>
    by_cases hc : c.isWhitespace = true
    · rw [pyWords_space c cs hc]; exact ih
    · have hc' : c.isWhitespace = false := by simpa using hc
      intro u hu
      cases cs with
      | nil =>
        rw [pyWords_one c hc'] at hu
        simp at hu
        subst hu
        simp [hc']
      | cons d cs2 =>
        by_cases hd : d.isWhitespace = true
        · rw [pyWords_cons_ws c d cs2 hc' hd] at hu
          simp at hu
          rcases hu with hu | hu
          · subst hu; simp [hc']
          · exact ih u hu
        · have hd' : d.isWhitespace = false := by simpa using hd
          rw [pyWords_cons_cons c d cs2 hc' hd'] at hu
          rcases h : pyWords (d :: cs2) with _ | ⟨w, ws⟩
          · rw [h] at hu
            simp [consWord] at hu
            subst hu
            simp [hc']
          · rw [h] at hu
            simp [consWord] at hu
            rcases hu with hu | hu
            · subst hu
              have hw := ih w (by rw [h]; simp)
              refine ⟨by simp, ?_⟩
              intro a ha
              simp at ha
              rcases ha with ha | ha
              · subst ha; exact hc'
              · exact hw.2 a ha
            · exact ih u (by rw [h]; simp [hu])

theorem joinSep_cons_cons (sep : PyStr) (w x : PyStr) (xs : List PyStr) :
    joinSep sep (w :: x :: xs) = w ++ sep ++ joinSep sep (x :: xs) := by
  rfl

theorem joinSep_snoc (sep w : PyStr) : ∀ (x : PyStr) (xs : List PyStr),
    joinSep sep (x :: (xs ++ [w])) = joinSep sep (x :: xs) ++ sep ++ w := by
  intro x xs
  induction xs generalizing x with
  | nil => rfl
  | cons y ys ih =>
    show joinSep sep (x :: y :: (ys ++ [w])) = _
    rw [joinSep_cons_cons, ih y, joinSep_cons_cons]
    simp [List.append_assoc]

theorem pyWords_join_space (g : List PyStr) (t : List Char)
    (h : ∀ w ∈ g, w ≠ [] ∧ ∀ c ∈ w, c.isWhitespace = false) :
    pyWords (joinSep [' '] g ++ ' ' :: t) = g ++ pyWords t := by
  induction g with
  | nil => rw [joinSep, List.nil_append, pyWords_space ' ' t space_isWhitespace, List.nil_append]
  | cons w g ih =>
    cases g with
    | nil =>
      have hw := h w (by simp)
      rw [joinSep, pyWords_word_space w t hw.1 hw.2, List.cons_append, List.nil_append]
    | cons x xs =>
      have hw := h w (by simp)
      have ih2 := ih (fun u hu => h u (by simp [hu]))
      rw [joinSep_cons_cons]
      have hs : w ++ [' '] ++ joinSep [' '] (x :: xs) ++ ' ' :: t
          = w ++ ' ' :: (joinSep [' '] (x :: xs) ++ ' ' :: t) := by simp
      rw [hs, pyWords_word_space w _ hw.1 hw.2, ih2]
      simp

theorem pyWords_joinSep (g : List PyStr)
    (h : ∀ w ∈ g, w ≠ [] ∧ ∀ c ∈ w, c.isWhitespace = false) :
    pyWords (joinSep [' '] g) = g := by
  cases g with
  | nil => rfl
  | cons w g =>
    induction g generalizing w with
    | nil =>
      have hw := h w (by simp)
      rw [joinSep, pyWords_word w hw.1 hw.2]
    | cons x xs ih =>
      have hw := h w (by simp)
      rw [joinSep_cons_cons]
      have hs : w ++ [' '] ++ joinSep [' '] (x :: xs) = w ++ ' ' :: joinSep [' '] (x :: xs) := by
        simp
      rw [hs, pyWords_word_space w _ hw.1 hw.2, ih x (fun u hu => h u (by simp [hu]))]

theorem pyWords_joined_groups (groups : List (List PyStr))
    (h : ∀ g ∈ groups, ∀ w ∈ g, w ≠ [] ∧ ∀ c ∈ w, c.isWhitespace = false) :
    pyWords (joinSep [' '] (groups.map (joinSep [' ']))) = groups.flatten := by
  cases groups with
  | nil => rfl
  | cons g groups =>
    induction groups generalizing g with
    | nil =>
      rw [List.map_cons, List.map_nil, joinSep, pyWords_joinSep g (h g (by simp))]
      simp
    | cons g2 gs ih =>
      have ih2 := ih g2 (fun u hu => h u (by simp [hu]))
      simp only [List.map_cons] at ih2 ⊢
      rw [joinSep_cons_cons]
      have hs : joinSep [' '] g ++ [' '] ++ joinSep [' '] (joinSep [' '] g2 :: List.map (joinSep [' ']) gs)
          = joinSep [' '] g ++ ' ' :: joinSep [' '] (joinSep [' '] g2 :: List.map (joinSep [' ']) gs) := by
        simp
      rw [hs, pyWords_join_space g _ (h g (by simp)), ih2]
      simp

theorem splitLoop_flatten (L : Int) (ws : List PyStr) :
    ∀ (cur : List PyStr) (n : Nat), (splitLoop L ws cur n).flatten = cur ++ ws := by
  induction ws with
  | nil =>
    intro cur n
    rw [splitLoop]
    split
    · simp [*]
    · simp
  | cons w ws ih =>
    intro cur n
    rw [splitLoop]
    split
    · rw [ih]; simp
    · rw [List.flatten_cons, ih]; simp

theorem splitLoop_multiword_le (L : Int) (ws : List PyStr) :
    ∀ (cur : List PyStr) (n : Nat),
      (cur = [] → n = 0) →
      (cur ≠ [] → (n : Int) = (joinSep [' '] cur).length + 1) →
      (2 ≤ cur.length → ((joinSep [' '] cur).length : Int) ≤ L) →
      ∀ g ∈ splitLoop L ws cur n, 2 ≤ g.length → ((joinSep [' '] g).length : Int) ≤ L := by
  induction ws with
  | nil =>
    intro cur n h0 h1 h2 g hg hlen
    rw [splitLoop] at hg
    split at hg
    · simp at hg
    · simp at hg; subst hg; exact h2 hlen
  | cons w ws ih =>
    intro cur n h0 h1 h2 g hg hlen
    rw [splitLoop] at hg
    split at hg
    case isTrue hcond =>
      refine ih (cur ++ [w]) (n + w.length + 1) (by simp) ?_ ?_ g hg hlen
      · intro _
        cases cur with
        | nil =>
          have hn := h0 rfl
          subst hn
          simp [joinSep]
        | cons c0 cs0 =>
          have hj : joinSep [' '] ((c0 :: cs0) ++ [w]) = joinSep [' '] (c0 :: cs0) ++ [' '] ++ w :=
            joinSep_snoc [' '] w c0 cs0
          rw [hj]
          have hn := h1 (by simp)
          simp only [List.length_append, List.length_cons, List.length_nil]
          push_cast at hn ⊢
          omega
      · intro hl
        cases cur with
        | nil => simp at hl
        | cons c0 cs0 =>
          have hj : joinSep [' '] ((c0 :: cs0) ++ [w]) = joinSep [' '] (c0 :: cs0) ++ [' '] ++ w :=
            joinSep_snoc [' '] w c0 cs0
          rw [hj]
          have hn := h1 (by simp)
          simp only [List.length_append, List.length_cons, List.length_nil]
          push_cast at hn hcond ⊢
          omega
    case isFalse hcond =>
      simp only [List.mem_cons] at hg
      rcases hg with rfl | hg
      · exact h2 hlen
      · refine ih [w] (w.length + 1) (by simp) ?_ (by intro hh; simp at hh) g hg hlen
        intro _
        simp [joinSep]

theorem splitLoop_mem_words (L : Int) (T : PyStr) (g : List PyStr)
    (hg : g ∈ splitLoop L (pyWords T) [] 0) :
    ∀ w ∈ g, w ≠ [] ∧ ∀ c ∈ w, c.isWhitespace = false := by
  intro w hw
  have hmem : w ∈ (splitLoop L (pyWords T) [] 0).flatten := List.mem_flatten.mpr ⟨g, hg, hw⟩
  rw [splitLoop_flatten] at hmem
  simp at hmem
  exact pyWords_wellformed T w hmem

/-- Claim C3 (counterexample): the spec asserts
`split("a b c d", 3) = ["a b", "c", "d"]`, but the code packs "c" and "d"
into one chunk. -/
theorem C3_split_abcd_counterexample :
    split_into_chunks ("a b c d").data 3 ≠ [("a b").data, ("c").data, ("d").data] := by
  decide

/-- Claim C3 (amended): `split_into_chunks("a b c d", 3)` returns exactly
`["a b", "c d"]`. -/
theorem C3_split_abcd :
    split_into_chunks ("a b c d").data 3 = [("a b").data, ("c d").data] := by
  decide

/-- Claim C4 (counterexample): on a single word longer than `max_length`
the code first appends `" ".join([])`, i.e. an empty chunk, so the result
is not the one-element sequence the claim asserts. -/
theorem C4_single_word_counterexample :
    split_into_chunks ("abcd").data 3 ≠ [("abcd").data] := by
  decide

/-- Claim C4 (amended): a non-empty whitespace-free input is returned as a
single chunk when it fits in `max_length`, and as an empty chunk followed
by the word when it is longer; empty input yields an empty sequence. -/
theorem C4_single_word (w : PyStr) (L : Int) (h1 : w ≠ [])
    (h2 : ∀ c ∈ w, c.isWhitespace = false) :
    split_into_chunks w L = (if (w.length : Int) ≤ L then [w] else [[], w]) ∧
      split_into_chunks [] L = [] := by
  constructor
  · rw [split_into_chunks, pyWords_word w h1 h2, splitLoop]
    split
    case isTrue h =>
      rw [if_pos (by push_cast at h ⊢; omega), splitLoop, if_neg (by simp)]
      simp [joinSep]
    case isFalse h =>
      rw [if_neg (by push_cast at h ⊢; omega), splitLoop, if_neg (by simp)]
      simp [joinSep]
  · rfl

/-- Witness for C4: the amended statement evaluated at the word "abcd"
with `max_length = 3`. -/
theorem C4_single_word_witness :
    (("abcd").data ≠ [] ∧ ∀ c ∈ ("abcd").data, c.isWhitespace = false) ∧
      (split_into_chunks ("abcd").data 3
          = (if ((("abcd").data.length : Int)) ≤ 3 then [("abcd").data] else [[], ("abcd").data]) ∧
        split_into_chunks [] 3 = []) :=
  ⟨⟨by decide, by decide⟩, C4_single_word ("abcd").data 3 (by decide) (by decide)⟩

/-- Claim C6: joining the chunks of `split_into_chunks` back with single
spaces reproduces the whitespace-normalized word sequence of the input:
no word lost, none duplicated, source order preserved. -/
theorem C6_split_rejoin (T : PyStr) (L : Int) (_hL : 0 < L) :
    pyWords (joinSep [' '] (split_into_chunks T L)) = pyWords T := by
  rw [split_into_chunks,
    pyWords_joined_groups _ (fun g hg => splitLoop_mem_words L T g hg),
    splitLoop_flatten]
  simp

/-- Witness for C6 at the text "a b c d" with `max_length = 3`. -/
theorem C6_split_rejoin_witness :
    (0 : Int) < 3 ∧
      pyWords (joinSep [' '] (split_into_chunks ("a b c d").data 3)) = pyWords ("a b c d").data :=
  ⟨by decide, C6_split_rejoin ("a b c d").data 3 (by decide)⟩

/-- Claim C7 (counterexample): with `max_length = -1` the code emits the
empty chunk `""`, whose length exceeds `max_length` although it does not
consist of exactly one word; so the claim fails for negative `max_length`. -/
theorem C7_over_length_counterexample :
    ([] : PyStr) ∈ split_into_chunks ("ab").data (-1) ∧
      (-1 : Int) < (([] : PyStr).length : Int) ∧ (pyWords ([] : PyStr)).length ≠ 1 := by
  refine ⟨by decide, by decide, by decide⟩

/-- Claim C7 (amended, restricted to `0 ≤ max_length`): a chunk longer than
`max_length` is a single over-length word, and any chunk holding two or
more words has length at most `max_length`. -/
theorem C7_over_length_chunks (T : PyStr) (L : Int) (hL : 0 ≤ L) (chunk : PyStr)
    (hc : chunk ∈ split_into_chunks T L) :
    ((L < (chunk.length : Int)) → pyWords chunk = [chunk]) ∧
      (2 ≤ (pyWords chunk).length → (chunk.length : Int) ≤ L) := by
  rw [split_into_chunks] at hc
  obtain ⟨g, hg, rfl⟩ := List.mem_map.mp hc
  have hwf : ∀ w ∈ g, w ≠ [] ∧ ∀ c ∈ w, c.isWhitespace = false := splitLoop_mem_words L T g hg
  have hmulti : 2 ≤ g.length → ((joinSep [' '] g).length : Int) ≤ L :=
    splitLoop_multiword_le L (pyWords T) [] 0 (fun _ => rfl) (by simp) (by simp) g hg
  have hpw : pyWords (joinSep [' '] g) = g := pyWords_joinSep g hwf
  constructor
  · intro hlong
    match g, hmulti, hpw, hlong with
    | [], _, _, hlong => simp [joinSep] at hlong; omega
    | [w], _, hpw, _ => simpa [joinSep] using hpw
    | w1 :: w2 :: gs, hmulti, _, hlong =>
      exfalso
      have := hmulti (by simp)
      omega
  · intro h2
    rw [hpw] at h2
    exact hmulti h2

/-- Witness for C7: the text "abcd x" with `max_length = 3` produces the
over-length single-word chunk "abcd". -/
theorem C7_over_length_chunks_witness :
    ((0 : Int) ≤ 3 ∧ ("abcd").data ∈ split_into_chunks ("abcd x").data 3) ∧
      (((3 : Int) < ((("abcd").data.length : Nat) : Int) → pyWords ("abcd").data = [("abcd").data]) ∧
        (2 ≤ (pyWords ("abcd").data).length → ((("abcd").data.length : Nat) : Int) ≤ 3)) :=
  ⟨⟨by decide, by decide⟩, C7_over_length_chunks ("abcd x").data 3 (by decide) ("abcd").data (by decide)⟩

theorem dotList_self_nonneg (a : List ℝ) : 0 ≤ dotList a a := by
  induction a with
  | nil => simp [dotList]
  | cons x a ih =>
    have : dotList (x :: a) (x :: a) = x * x + dotList a a := by simp [dotList]
    rw [this]
    exact add_nonneg (mul_self_nonneg x) ih

theorem dotList_self_eq_zero (a : List ℝ) (h : dotList a a = 0) : ∀ x ∈ a, x = 0 := by
  induction a with
  | nil => simp
  | cons x a ih =>
    have hx : dotList (x :: a) (x :: a) = x * x + dotList a a := by simp [dotList]
    rw [hx] at h
    have h2 := (add_eq_zero_iff_of_nonneg (mul_self_nonneg x) (dotList_self_nonneg a)).mp h
    intro y hy
    rcases List.mem_cons.mp hy with rfl | hy
    · exact mul_self_eq_zero.mp h2.1
    · exact ih h2.2 y hy

theorem dotList_zero_left (a b : List ℝ) (h : ∀ x ∈ a, x = 0) : dotList a b = 0 := by
  induction a generalizing b with
  | nil => simp [dotList]
  | cons x a ih =>
    cases b with
    | nil => simp [dotList]
    | cons y b =>
      have hx : dotList (x :: a) (y :: b) = x * y + dotList a b := by simp [dotList]
      rw [hx, h x (by simp), ih b (fun z hz => h z (by simp [hz]))]
      simp

theorem dotList_zero_right (a b : List ℝ) (h : ∀ y ∈ b, y = 0) : dotList a b = 0 := by
  induction a generalizing b with
  | nil => simp [dotList]
  | cons x a ih =>
    cases b with
    | nil => simp [dotList]
    | cons y b =>
      have hx : dotList (x :: a) (y :: b) = x * y + dotList a b := by simp [dotList]
      rw [hx, h y (by simp), ih b (fun z hz => h z (by simp [hz]))]
      simp

theorem dotList_map_div (a b : List ℝ) (p q : ℝ) :
    dotList (a.map (fun x => x / p)) (b.map (fun y => y / q)) = dotList a b / (p * q) := by
  induction a generalizing b with
  | nil => simp [dotList]
  | cons x a ih =>
    cases b with
    | nil => simp [dotList]
    | cons y b =>
      have h1 : dotList ((x :: a).map (fun x => x / p)) ((y :: b).map (fun y => y / q))
          = (x / p) * (y / q) + dotList (a.map (fun x => x / p)) (b.map (fun y => y / q)) := by
        simp [dotList]
      have h2 : dotList (x :: a) (y :: b) = x * y + dotList a b := by simp [dotList]
      rw [h1, h2, ih, div_mul_div_comm, add_div]

theorem norm2_eq_zero_iff (a : List ℝ) : norm2 a = 0 ↔ dotList a a = 0 := by
  rw [norm2, Real.sqrt_eq_zero']
  constructor
  · intro h; exact le_antisymm h (dotList_self_nonneg a)
  · intro h; rw [h]

/-- Claim C9: the similarity the Ranker uses (the sklearn
normalize-then-dot, which never divides by zero) equals the spec formula
`dot(a,b) / (norm(a) * norm(b))` with 0 for zero-magnitude inputs. -/
theorem C9_cosine_similarity_spec (a b : List ℝ) :
    cosineSimilarity a b = cosineSimilaritySpec a b := by
  by_cases ha : norm2 a = 0
  · have hza : ∀ x ∈ a, x = 0 := dotList_self_eq_zero a ((norm2_eq_zero_iff a).mp ha)
    rw [cosineSimilarity, cosineSimilaritySpec, if_pos (Or.inl ha)]
    apply dotList_zero_left
    intro x hx
    obtain ⟨x0, hx0, rfl⟩ := List.mem_map.mp hx
    rw [hza x0 hx0]
    simp
  · by_cases hb : norm2 b = 0
    · have hzb : ∀ y ∈ b, y = 0 := dotList_self_eq_zero b ((norm2_eq_zero_iff b).mp hb)
      rw [cosineSimilarity, cosineSimilaritySpec, if_pos (Or.inr hb)]
      apply dotList_zero_right
      intro y hy
      obtain ⟨y0, hy0, rfl⟩ := List.mem_map.mp hy
      rw [hzb y0 hy0]
      simp
    · rw [cosineSimilarity, cosineSimilaritySpec, if_neg (by tauto), sklearnNormalize,
        sklearnNormalize, if_neg ha, if_neg hb, dotList_map_div]

theorem length_insertDesc (x : PyStr × ℝ) (l : List (PyStr × ℝ)) :
    (insertDesc x l).length = l.length + 1 := by
  induction l with
  | nil => rfl
  | cons y ys ih =>
    rw [insertDesc]
    split
    · simp
    · simp [ih]

theorem length_sortDesc (l : List (PyStr × ℝ)) : (sortDesc l).length = l.length := by
  induction l with
  | nil => rfl
  | cons x xs ih => rw [sortDesc, length_insertDesc, ih, List.length_cons]

theorem length_pySlice {α : Type} (k : Int) (l : List α) :
    (pySlice k l).length
      = min (if k < 0 then ((l.length : Int) + k).toNat else k.toNat) l.length := by
  rw [pySlice]
  split <;> simp [List.length_take]

theorem length_retrieve (encode : PyStr → List ℝ) (corpus : List (PyStr × List ℝ))
    (query : PyStr) (top_k : Int) :
    (retrieve_relevant_chunks encode corpus query top_k).length
      = min (if top_k < 0 then ((corpus.length : Int) + top_k).toNat else top_k.toNat)
          corpus.length := by
  rw [retrieve_relevant_chunks, List.length_map, length_pySlice, length_sortDesc,
    scoredChunks, List.length_map]

/-- Claim C2 (counterexample): with a two-record corpus and `top_k = -1`,
the Python slice `chunks[:-1]` keeps one entry, so `rank` does not return
the empty sequence for negative `k`. -/
theorem C2_negative_k_counterexample :
    retrieve_relevant_chunks (fun _ => []) [(['a'], []), (['b'], [])] ['q'] (-1) ≠ [] := by
  intro h
  have hlen := congrArg List.length h
  rw [length_retrieve] at hlen
  simp at hlen

/-- Claim C2 (amended): the Ranker returns `min(k, |corpus|)` entries for
`k > 0` and the empty sequence for `k = 0` or an empty corpus, but for
`k < 0` it follows Python slice semantics and returns
`max(|corpus| + k, 0)` entries. -/
theorem C2_rank_result_size (encode : PyStr → List ℝ) (corpus : List (PyStr × List ℝ))
    (query : PyStr) (k : Int) :
    (retrieve_relevant_chunks encode corpus query k).length
      = min (if k < 0 then ((corpus.length : Int) + k).toNat else k.toNat) corpus.length :=
  length_retrieve encode corpus query k

theorem withScore_insertDesc (s : ℝ) (x : PyStr × ℝ) (l : List (PyStr × ℝ)) :
    withScore s (insertDesc x l)
      = if x.2 = s then x.1 :: withScore s l else withScore s l := by
  induction l with
  | nil =>
    by_cases hx : x.2 = s <;> simp [insertDesc, withScore, hx]
  | cons y ys ih =>
    rw [insertDesc]
    split
    case isTrue hyx =>
      by_cases hx : x.2 = s <;> simp [withScore, List.filter_cons, hx]
    case isFalse hyx =>
      by_cases hx : x.2 = s
      · have hy : ¬ (y.2 = s) := by
          intro he
          exact hyx (le_of_eq (he.trans hx.symm))
        simp [withScore, List.filter_cons, hy, hx] at ih ⊢
        exact ih
      · by_cases hy : y.2 = s <;>
          simp [withScore, List.filter_cons, hy, hx] at ih ⊢ <;> exact ih

theorem withScore_sortDesc (s : ℝ) (l : List (PyStr × ℝ)) :
    withScore s (sortDesc l) = withScore s l := by
  induction l with
  | nil => rfl
  | cons x xs ih =>
    rw [sortDesc, withScore_insertDesc, ih]
    by_cases hx : x.2 = s <;> simp [withScore, List.filter_cons, hx]

/-- Claim C8: the descending sort of the Ranker is stable — for every
score `s`, the records carrying score `s` appear in the sorted ranking in
exactly their corpus enumeration order. -/
theorem C8_stable_ties (encode : PyStr → List ℝ) (corpus : List (PyStr × List ℝ))
    (query : PyStr) (s : ℝ) :
    withScore s (sortDesc (scoredChunks encode corpus query))
      = withScore s (scoredChunks encode corpus query) :=
  withScore_sortDesc s (scoredChunks encode corpus query)

/-- Claim C1: on an empty corpus the Ranker returns no chunks, and when
the generated answer is short the fallback branch evaluates
`relevant_chunks[0]` on the empty list — the operation fails (raises
`IndexError`, here `none`) instead of surfacing a distinct "no context
available" outcome. -/
theorem C1_empty_corpus_fallback_raises :
    answer_question (fun _ => []) (fun _ => []) [] ['q'] = none := rfl

theorem answerRelevantChunks_ne_nil (encode : PyStr → List ℝ)
    (corpus : List (PyStr × List ℝ)) (query : PyStr) (h : corpus ≠ []) :
    answerRelevantChunks encode corpus query ≠ [] := by
  intro hn
  have hlen := congrArg List.length hn
  rw [answerRelevantChunks, length_retrieve] at hlen
  norm_num [answerTopK] at hlen
  exact h hlen

/-- Claim C5: for a non-empty corpus, the short-answer fallback triggers
exactly when the generated text has fewer than 10 characters;
`usedFallback` is true exactly in that case, and then the returned text
extends the generated text. -/
theorem C5_fallback_trigger_iff (encode : PyStr → List ℝ) (qa_pipeline : PyStr → PyStr)
    (corpus : List (PyStr × List ℝ)) (query : PyStr) (h : corpus ≠ []) :
    ∃ a : Answer, answer_question encode qa_pipeline corpus query = some a ∧
      (a.usedFallback = true ↔ (answerGenerated encode qa_pipeline corpus query).length < 10) ∧
      (a.usedFallback = true →
        ∃ t, a.text = answerGenerated encode qa_pipeline corpus query ++ t) := by
  by_cases h10 : (answerGenerated encode qa_pipeline corpus query).length < 10
  · obtain ⟨ch, rest, hc⟩ :=
      List.exists_cons_of_ne_nil (answerRelevantChunks_ne_nil encode corpus query h)
    refine ⟨⟨answerGenerated encode qa_pipeline corpus query
        ++ (" (Additional context: ").data ++ ch.take 200 ++ ("...)").data, true⟩, ?_, ?_, ?_⟩
    · rw [answer_question, if_pos h10, hc]
    · simpa using h10
    · intro _
      exact ⟨(" (Additional context: ").data ++ ch.take 200 ++ ("...)").data, by
        simp [List.append_assoc]⟩
  · refine ⟨⟨answerGenerated encode qa_pipeline corpus query, false⟩, ?_, ?_, ?_⟩
    · rw [answer_question, if_neg h10]
    · simp [h10]
    · intro hfalse; simp at hfalse

/-- Witness for C5 at a one-record corpus with an empty-vector encoder
and a generation gateway that always returns the empty string. -/
theorem C5_fallback_trigger_iff_witness :
    ([((['c'] : PyStr), ([] : List ℝ))] ≠ []) ∧
      ∃ a : Answer,
        answer_question (fun _ => []) (fun _ => []) [((['c'] : PyStr), ([] : List ℝ))] ['q']
            = some a ∧
          (a.usedFallback = true ↔
            (answerGenerated (fun _ => []) (fun _ => [])
              [((['c'] : PyStr), ([] : List ℝ))] ['q']).length < 10) ∧
          (a.usedFallback = true →
            ∃ t, a.text = answerGenerated (fun _ => []) (fun _ => [])
              [((['c'] : PyStr), ([] : List ℝ))] ['q'] ++ t) :=
  ⟨by simp, C5_fallback_trigger_iff (fun _ => []) (fun _ => [])
    [((['c'] : PyStr), ([] : List ℝ))] ['q'] (by simp)⟩

/-- Claim C10: when the fallback triggers, the returned text is exactly
the generated text, the literal " (Additional context: ", the first at
most 200 characters of the top-ranked chunk, and "...)"; the excerpt is
bounded by 200 characters. -/
theorem C10_fallback_format (encode : PyStr → List ℝ) (qa_pipeline : PyStr → PyStr)
    (corpus : List (PyStr × List ℝ)) (query : PyStr) (c : PyStr) (rest : List PyStr)
    (h10 : (answerGenerated encode qa_pipeline corpus query).length < 10)
    (hc : answerRelevantChunks encode corpus query = c :: rest) :
    answer_question encode qa_pipeline corpus query
        = some ⟨answerGenerated encode qa_pipeline corpus query
            ++ (" (Additional context: ").data ++ c.take 200 ++ ("...)").data, true⟩ ∧
      (c.take 200).length ≤ 200 := by
  constructor
  · rw [answer_question, if_pos h10, hc]
  · rw [List.length_take]
    exact min_le_left _ _

/-- Witness for C10 at a one-record corpus whose chunk is "hello". -/
theorem C10_fallback_format_witness :
    ((answerGenerated (fun _ => []) (fun _ => [])
        [(("hello").data, ([] : List ℝ))] ['q']).length < 10 ∧
      answerRelevantChunks (fun _ => []) [(("hello").data, ([] : List ℝ))] ['q']
        = ("hello").data :: []) ∧
      (answer_question (fun _ => []) (fun _ => []) [(("hello").data, ([] : List ℝ))] ['q']
          = some ⟨answerGenerated (fun _ => []) (fun _ => [])
              [(("hello").data, ([] : List ℝ))] ['q']
            ++ (" (Additional context: ").data ++ ("hello").data.take 200 ++ ("...)").data, true⟩ ∧
        (("hello").data.take 200).length ≤ 200) :=
  ⟨⟨by decide, rfl⟩,
    C10_fallback_format (fun _ => []) (fun _ => []) [(("hello").data, ([] : List ℝ))] ['q']
      ("hello").data [] (by decide) rfl⟩

end RagModel
